import Mathlib

/-!
Verification development for the Lunaria git tracking core
(`LunariaGitInstance.getFileLatestChanges` and `findLatestTrackedCommit`).

The TypeScript source is embedded shallowly:
  * a git commit record (simple-git `DefaultLogFields`) becomes `Commit`
    with its `hash`, `date`, `message` (subject line) and `body` fields;
  * the tracking configuration becomes `Tracking` (its `ignoredKeywords`);
  * the JavaScript regular expressions of `findLatestTrackedCommit` are
    embedded as executable character-list scanners with the same observable
    behaviour on the inputs the claims are about;
  * JavaScript exceptions (the `TypeError` thrown when `pathsOrGlobs` is
    `undefined` and `.split` is called on it, and the `TypeError` thrown by
    picomatch on an empty pattern) become `Except.error`;
  * `process.exit(1)` after logging `UncommittedFileFound` becomes the
    `GitError.uncommittedFileFound` error value carrying the file path.
-/

/-- Commit record as produced by the version-control backend: hash, author
date, subject line (`message`) and body text, mirroring the simple-git
`DefaultLogFields` used by the source. -/
structure Commit where
  hash : String
  date : String
  message : String
  body : String
deriving DecidableEq, Repr

/-- The three fields of a commit that `getFileLatestChanges` copies into its
result records. -/
structure CommitInfo where
  date : String
  message : String
  hash : String
deriving DecidableEq, Repr

/-- Projection used when `getFileLatestChanges` builds its return value. -/
def Commit.info (c : Commit) : CommitInfo :=
  ⟨c.date, c.message, c.hash⟩

/-- The tracking section of the Lunaria configuration that
`findLatestTrackedCommit` consumes. -/
structure Tracking where
  ignoredKeywords : List String
deriving DecidableEq, Repr

/-- Whether the list `n` is an initial segment of the list `h`. -/
def startsWithList : List Char → List Char → Bool
  | [], _ => true
  | _ :: _, [] => false
  | n :: ns, c :: cs => n == c && startsWithList ns cs

/-- Whether `needle` occurs as a contiguous run inside `haystack`. -/
def containsSub (needle : List Char) : List Char → Bool
  | [] => needle.isEmpty
  | c :: cs => startsWithList needle (c :: cs) || containsSub needle cs

/-- Lower-cased character data of a string, modelling the `i` regex flag. -/
def lowerStr (s : String) : List Char :=
  s.data.map Char.toLower

/-- Truthiness of `commit.message.match(ignoredKeywordsRe)` where
`ignoredKeywordsRe` is built in the source as
`new RegExp('(' + keywords.join('|') + ')', 'i')` and the configured
keywords are literal fragments.  When the keyword list is empty the joined
pattern is the empty alternation, which matches every string (including the
empty one); otherwise some keyword must occur case-insensitively in the
message. -/
def msgMatchesIgnored (keywords : List String) (message : String) : Bool :=
  keywords.isEmpty || keywords.any (fun k => containsSub (lowerStr k) (lowerStr message))

/-- Character data of the literal `@lunaria-track:` prefix of the tracker
directive regex. -/
def trackStr : List Char := "@lunaria-track:".data

/-- Character data of the literal `@lunaria-ignore:` prefix of the tracker
directive regex. -/
def ignoreStr : List Char := "@lunaria-ignore:".data

/-- A single attempt of the tracker-directive regex at the current position:
either alternative of `(@lunaria-track|@lunaria-ignore):` followed by the
rest of the input.  Returns the captured directive string and the remaining
characters. -/
def matchDirectiveAt (body : List Char) : Option (String × List Char) :=
  if startsWithList trackStr body then
    some ("@lunaria-track", body.drop trackStr.length)
  else if startsWithList ignoreStr body then
    some ("@lunaria-ignore", body.drop ignoreStr.length)
  else
    none

/-- First match of the tracker-directive regex
`(?<directive>@lunaria-track|@lunaria-ignore):(?<pathsOrGlobs>[^\n]+)?`
over the commit body, scanning left to right.  The optional capture group
takes the maximal run of non-newline characters after the colon; when that
run is empty the group does not participate, giving `none` for
`pathsOrGlobs` — the JavaScript `undefined`. -/
def findDirective : List Char → Option (String × Option String)
  | [] => none
  | c :: rest =>
    match matchDirectiveAt (c :: rest) with
    | some (d, after) =>
      let captured := after.takeWhile (fun ch => ch ≠ '\n')
      some (d, if captured.isEmpty then none else some (String.mk captured))
    | none => findDirective rest

/-- Splitting on the semicolon character with JavaScript
`String.prototype.split(';')` semantics: the empty string yields one empty
piece and a trailing separator yields a trailing empty piece. -/
def splitSemiAux (cur : List Char) : List Char → List (List Char)
  | [] => [cur.reverse]
  | c :: cs =>
    if c = ';' then cur.reverse :: splitSemiAux [] cs
    else splitSemiAux (c :: cur) cs

/-- The `pathsOrGlobs.split(';')` of the source. -/
def splitSemi (s : String) : List String :=
  (splitSemiAux [] s.data).map String.mk

/-- Fuel-bounded glob matcher: `**` matches any run of characters, `*` any
run of characters other than the path separator, every other character
matches itself.  Each recursive call strictly decreases the combined length
of pattern and input, so the fuel used below never runs out. -/
def globMatchFuel : Nat → List Char → List Char → Bool
  | 0, _, _ => false
  | fuel + 1, p, s =>
    match p, s with
    | [], [] => true
    | [], _ :: _ => false
    | '*' :: '*' :: ps, s =>
      globMatchFuel fuel ps s ||
        (match s with
         | [] => false
         | _ :: s2 => globMatchFuel fuel ('*' :: '*' :: ps) s2)
    | '*' :: ps, s =>
      globMatchFuel fuel ps s ||
        (match s with
         | [] => false
         | c :: s2 => if c = '/' then false else globMatchFuel fuel ('*' :: ps) s2)
    | _ :: _, [] => false
    | pc :: ps, c :: s2 => pc == c && globMatchFuel fuel ps s2

/-- Glob match of a pattern against a path, with enough fuel for the
bounded recursion. -/
def globMatch (p s : List Char) : Bool :=
  globMatchFuel (p.length + s.length + 1) p s

/-- Model of `picomatch.isMatch(path, glob)`: picomatch raises a
`TypeError` when the pattern is the empty string, and otherwise performs
glob matching (`*` within a segment, `**` across segments, other characters
literal). -/
def picoIsMatch (path glob : String) : Except Unit Bool :=
  if glob = "" then .error ()
  else .ok (globMatch glob.data path.data)

/-- The callback passed to `pathsOrGlobs.split(';').find(...)` in the
source: for `@lunaria-track` it returns `picomatch.isMatch(path,
pathOrGlob)`, for `@lunaria-ignore` its negation, and `undefined` (falsy,
modelled as `false`) for any other directive string.  A picomatch exception
propagates. -/
def dirCallback (directive path g : String) : Except Unit Bool :=
  if directive = "@lunaria-track" then picoIsMatch path g
  else if directive = "@lunaria-ignore" then
    match picoIsMatch path g with
    | .error e => .error e
    | .ok b => .ok !b
  else .ok false

/-- The `Array.prototype.find(...) !== undefined` of the source over the
split pieces, with a callback that may throw: pieces are inspected in
order, the first truthy callback result means found, and an exception from
the callback propagates. -/
def dirFind (directive path : String) : List String → Except Unit Bool
  | [] => .ok false
  | g :: gs =>
    match dirCallback directive path g with
    | .error e => .error e
    | .ok true => .ok true
    | .ok false => dirFind directive path gs

/-- The directive stage of the per-commit predicate of
`findLatestTrackedCommit`, operating on the commit body only.  No regex
match means the commit is considered tracked.  A match whose
`pathsOrGlobs` group did not participate reaches
`pathsOrGlobs.split(';')` with `pathsOrGlobs === undefined`, which throws a
`TypeError` (the guard `!trackerDirectiveMatch.groups` in the source never
fires, because a successful match of a regex with named groups always
carries a `groups` object). -/
def directiveDecision (path : String) (body : String) : Except Unit Bool :=
  match findDirective body.data with
  | none => .ok true
  | some (_, none) => .error ()
  | some (directive, some pathsOrGlobs) =>
    dirFind directive path (splitSemi pathsOrGlobs)

/-- The whole per-commit predicate of `findLatestTrackedCommit`: the
ignored-keyword veto is applied to the subject line first and, only when it
does not fire, the directive stage is applied to the body. -/
def commitDecision (tracking : Tracking) (path : String) (c : Commit) : Except Unit Bool :=
  if msgMatchesIgnored tracking.ignoredKeywords c.message then .ok false
  else directiveDecision path c.body

/-- Embedding of `findLatestTrackedCommit(tracking, path, commits)`:
`commits.find(...)` over the newest-first commit list with the predicate
above; the first commit whose predicate is true is returned, an exception
from the predicate propagates, and no qualifying commit yields `none`
(`undefined`). -/
def findLatestTrackedCommit (tracking : Tracking) (path : String) :
    List Commit → Except Unit (Option Commit)
  | [] => .ok none
  | c :: cs =>
    match commitDecision tracking path c with
    | .error e => .error e
    | .ok true => .ok (some c)
    | .ok false => findLatestTrackedCommit tracking path cs

/-- Errors through which `getFileLatestChanges` can fail to return:
the logged `UncommittedFileFound` followed by `process.exit(1)` when the
log (or the fallback) is empty, and the uncaught JavaScript `TypeError`
escaping from `findLatestTrackedCommit`. -/
inductive GitError where
  | uncommittedFileFound (path : String)
  | jsTypeError
deriving DecidableEq, Repr

/-- The mutable state of a `LunariaGitInstance`: the force flag and the
path-to-hash cache record. -/
structure LunariaGitInstance where
  force : Bool
  cache : List (String × String)
deriving DecidableEq, Repr

/-- The constructor of `LunariaGitInstance`: with `force` set the cache
starts empty, otherwise it is the cache contents loaded from disk. -/
def initGit (force : Bool) (loadedCache : List (String × String)) : LunariaGitInstance :=
  ⟨force, if force then [] else loadedCache⟩

/-- Reading `this.#cache[path]`: the value stored for `path`, if any. -/
def cacheLookup (cache : List (String × String)) (path : String) : Option String :=
  match cache.find? (fun e => e.1 == path) with
  | some e => some e.2
  | none => none

/-- Writing `this.#cache[path] = hash`: overwrite an existing entry or
append a new one. -/
def cacheInsert (cache : List (String × String)) (path hash : String) : List (String × String) :=
  if (cache.find? (fun e => e.1 == path)).isSome then
    cache.map (fun e => if e.1 = path then (path, hash) else e)
  else
    cache ++ [(path, hash)]

/-- The `from` option the source passes to `git.log`: when the cache holds
a truthy (non-empty) hash for the path it is that hash with a caret
appended (`hash^`, the parent of the cached commit), otherwise
`undefined`. -/
def fromArg (git : LunariaGitInstance) (path : String) : Option String :=
  match cacheLookup git.cache path with
  | some h => if h = "" then none else some (h ++ "^")
  | none => none

/-- First index of a commit satisfying the predicate. -/
def findIdxOpt (p : Commit → Bool) : List Commit → Option Nat
  | [] => none
  | c :: cs => if p c then some 0 else (findIdxOpt p cs).map (· + 1)

/-- Model of the commit sequence the version-control backend returns for a
log query over the full newest-first history of a file with an optional
`from` revision: the result is the commits strictly newer than the `from`
revision.  A revision written `h^` denotes the parent of the commit with
hash `h`, so such a bound keeps the commit with hash `h` itself and
everything newer. -/
def gitLogFrom (history : List Commit) : Option String → List Commit
  | none => history
  | some rev =>
    match findIdxOpt (fun c => c.hash ++ "^" == rev) history with
    | some i => history.take (i + 1)
    | none =>
      match findIdxOpt (fun c => c.hash == rev) history with
      | some i => history.take i
      | none => history

/-- The cache write at the end of `getFileLatestChanges`, guarded by
`if (!this.#force)`. -/
def writeCache (git : LunariaGitInstance) (path hash : String) : LunariaGitInstance :=
  if git.force then git else ⟨git.force, cacheInsert git.cache path hash⟩

/-- The `findLatestTrackedCommit(...) ?? latestChange` fallback. -/
def fallbackPick (found latest : Option Commit) : Option Commit :=
  match found with
  | some c => some c
  | none => latest

/-- Per-file result record of `getFileLatestChanges`. -/
structure ResolutionResult where
  latestChange : CommitInfo
  latestTrackedChange : CommitInfo
deriving DecidableEq, Repr

/-- Embedding of `getFileLatestChanges(path)` applied to the commit
sequence `logAll` returned by the backend for the query (newest first, so
`log.latest` is its head).  The tracked commit is resolved, falling back to
the latest change; if either is missing the `UncommittedFileFound` error is
logged and the process exits; otherwise, unless forced, the cache records
the tracked hash and the result records are built from the commit
fields. -/
def getFileLatestChanges (tracking : Tracking) (git : LunariaGitInstance)
    (path : String) (logAll : List Commit) :
    Except GitError (LunariaGitInstance × ResolutionResult) :=
  match findLatestTrackedCommit tracking path logAll with
  | .error _ => .error GitError.jsTypeError
  | .ok found =>
    match logAll.head?, fallbackPick found logAll.head? with
    | some lc, some tc =>
      .ok (writeCache git path tc.hash,
        { latestChange := lc.info, latestTrackedChange := tc.info })
    | _, _ => .error (GitError.uncommittedFileFound path)

/-- One full per-file call against the backend: the log is requested with
the `from` bound computed from the cache and the result updates the
instance state; an error leaves the state as it was. -/
def gitCall (tracking : Tracking) (git : LunariaGitInstance)
    (call : String × List Commit) : LunariaGitInstance :=
  match getFileLatestChanges tracking git call.1 (gitLogFrom call.2 (fromArg git call.1)) with
  | .ok (git2, _) => git2
  | .error _ => git

/-- A sequence of per-file calls threaded through the instance state. -/
def runCalls (tracking : Tracking) (git : LunariaGitInstance)
    (calls : List (String × List Commit)) : LunariaGitInstance :=
  calls.foldl (gitCall tracking) git

/-- Concrete commit with an ignore directive listing two literal paths,
used to exercise the multi-glob branch. -/
def exIgnoreCommit : Commit :=
  ⟨"h1", "2024-05-01", "update docs", "@lunaria-ignore:docs/a.md;docs/b.md"⟩

/-- Concrete commit whose body has directive syntax with an empty capture:
the colon is immediately followed by a line break, so the `pathsOrGlobs`
group does not participate. -/
def exMalformedCommit : Commit :=
  ⟨"h2", "2024-05-02", "add docs guide", "@lunaria-track:\nrest of body"⟩

/-- Concrete newest commit of a two-commit history. -/
def exNewer : Commit := ⟨"h9", "2024-06-02", "newer change", ""⟩

/-- Concrete older commit of a two-commit history, playing the checkpoint
role. -/
def exOlder : Commit := ⟨"h1", "2024-06-01", "older change", ""⟩

/-- Concrete plain commit with no directive and no keyword. -/
def exPlainA : Commit := ⟨"ha", "2024-07-02", "edit intro", "longer description"⟩

/-- Concrete second plain commit with no directive and no keyword. -/
def exPlainB : Commit := ⟨"hb", "2024-07-01", "start intro", "older description"⟩

/-- Concrete commit whose subject line carries an ignored keyword in mixed
case and whose body carries a track directive naming the file. -/
def exVetoCommit : Commit :=
  ⟨"hv", "2024-07-03", "Fix typo", "@lunaria-track:docs/a.md"⟩

/-- Concrete commit whose subject line carries directive syntax and whose
body carries an ignored keyword, but not the other way round. -/
def exSwappedCommit : Commit :=
  ⟨"hs", "2024-07-04", "@lunaria-ignore:docs/a.md add guide", "notes: wip cleanup"⟩

/-- Soundness of the find over the commit list: a returned commit is an
element of the list and its per-commit predicate evaluated to true. -/
theorem findLatest_sound (tracking : Tracking) (path : String) :
    ∀ (commits : List Commit) (c : Commit),
      findLatestTrackedCommit tracking path commits = .ok (some c) →
      c ∈ commits ∧ commitDecision tracking path c = .ok true := by
  intro commits
  induction commits with
  | nil => intro c h; simp [findLatestTrackedCommit] at h
  | cons hd tl ih =>
    intro c h
    simp only [findLatestTrackedCommit] at h
    cases hdec : commitDecision tracking path hd with
    | error e => rw [hdec] at h; simp at h
    | ok b =>
      rw [hdec] at h
      cases b with
      | true =>
        simp at h
        subst h
        exact ⟨List.mem_cons_self _ _, hdec⟩
      | false =>
        simp at h
        obtain ⟨hm, hd2⟩ := ih c h
        exact ⟨List.mem_cons_of_mem _ hm, hd2⟩

/-- C1: for every non-empty newest-first commit sequence in which no commit
body contains a tracker directive and no commit message matches a
configured ignored keyword, findLatestTrackedCommit returns the newest
(first) commit of the sequence. -/
theorem c1_no_directive_no_keyword_returns_newest
    (tracking : Tracking) (path : String) (c : Commit) (cs : List Commit)
    (hmsg : ∀ x ∈ c :: cs, msgMatchesIgnored tracking.ignoredKeywords x.message = false)
    (hdir : ∀ x ∈ c :: cs, findDirective x.body.data = none) :
    findLatestTrackedCommit tracking path (c :: cs) = .ok (some c) := by
  have h1 := hmsg c (List.mem_cons_self c cs)
  have h2 := hdir c (List.mem_cons_self c cs)
  have hdec : commitDecision tracking path c = .ok true := by
    simp [commitDecision, h1, directiveDecision, h2]
  simp [findLatestTrackedCommit, hdec]

/-- Witness for C1 at a concrete two-commit history with keyword fix
configured and neither commit mentioning it or any directive. -/
theorem c1_witness :
    ((∀ x ∈ [exPlainA, exPlainB],
        msgMatchesIgnored (Tracking.mk ["fix"]).ignoredKeywords x.message = false) ∧
     (∀ x ∈ [exPlainA, exPlainB], findDirective x.body.data = none)) ∧
    findLatestTrackedCommit ⟨["fix"]⟩ "docs/a.md" [exPlainA, exPlainB] = .ok (some exPlainA) :=
  ⟨⟨by decide, by decide⟩,
   c1_no_directive_no_keyword_returns_newest ⟨["fix"]⟩ "docs/a.md" exPlainA [exPlainB]
     (by decide) (by decide)⟩

/-- C2: a commit whose subject line matches a configured ignored keyword
(case-insensitively) is vetoed before directive parsing — its per-commit
predicate is false whatever its body holds — and findLatestTrackedCommit
never returns it from any commit sequence. -/
theorem c2_ignored_keyword_commit_never_selected
    (tracking : Tracking) (path : String) (c : Commit) (commits : List Commit)
    (h : msgMatchesIgnored tracking.ignoredKeywords c.message = true) :
    commitDecision tracking path c = .ok false ∧
    findLatestTrackedCommit tracking path commits ≠ .ok (some c) := by
  have hdec : commitDecision tracking path c = .ok false := by
    simp [commitDecision, h]
  refine ⟨hdec, ?_⟩
  intro hcontra
  obtain ⟨-, htrue⟩ := findLatest_sound tracking path commits c hcontra
  rw [hdec] at htrue
  simp at htrue

/-- Witness for C2: subject Fix typo matches keyword fix case-insensitively
while the body carries a track directive naming exactly the current file,
and the commit is still not selected. -/
theorem c2_witness :
    msgMatchesIgnored (Tracking.mk ["fix"]).ignoredKeywords exVetoCommit.message = true ∧
    (commitDecision ⟨["fix"]⟩ "docs/a.md" exVetoCommit = .ok false ∧
     findLatestTrackedCommit ⟨["fix"]⟩ "docs/a.md" [exVetoCommit] ≠ .ok (some exVetoCommit)) :=
  ⟨rfl, c2_ignored_keyword_commit_never_selected ⟨["fix"]⟩ "docs/a.md" exVetoCommit
    [exVetoCommit] rfl⟩

/-- C4: on a commit whose body has directive syntax with an unparseable
path list — the colon immediately followed by a line break, so the
pathsOrGlobs group does not participate — the code does not treat the
commit as tracked: the dead guard on the groups object never fires and the
call `pathsOrGlobs.split` throws a TypeError that propagates out of
findLatestTrackedCommit and getFileLatestChanges, contradicting the
documented soft-failure behaviour. -/
theorem c4_malformed_directive_throws :
    msgMatchesIgnored (Tracking.mk ["zzz"]).ignoredKeywords exMalformedCommit.message = false ∧
    findDirective exMalformedCommit.body.data = some ("@lunaria-track", none) ∧
    findLatestTrackedCommit ⟨["zzz"]⟩ "docs/a.md" [exMalformedCommit] = .error () ∧
    getFileLatestChanges ⟨["zzz"]⟩ ⟨false, []⟩ "docs/a.md" [exMalformedCommit] =
      .error GitError.jsTypeError :=
  ⟨rfl, rfl, rfl, rfl⟩

/-- C6: a file whose history query returns zero commits makes
getFileLatestChanges signal the fatal uncommitted-file error carrying the
path, and it never returns a successful result. -/
theorem c6_empty_history_fatal (tracking : Tracking) (git : LunariaGitInstance) (path : String) :
    getFileLatestChanges tracking git path [] = .error (GitError.uncommittedFileFound path) ∧
    ∀ (st : LunariaGitInstance) (res : ResolutionResult),
      getFileLatestChanges tracking git path [] ≠ .ok (st, res) := by
  refine ⟨rfl, ?_⟩
  intro st res hcontra
  exact Except.noConfusion hcontra

/-- Evaluation of the throwing find over the split pieces for the ignore
directive when no piece is empty: the search is exception-free and succeeds
exactly when some listed glob fails to match the path. -/
theorem dirFind_ignore_any (path : String) :
    ∀ l : List String, (∀ g ∈ l, g ≠ "") →
      dirFind "@lunaria-ignore" path l =
        .ok (l.any fun g => !globMatch g.data path.data) := by
  intro l
  induction l with
  | nil => intro _; rfl
  | cons g gs ih =>
    intro hne
    have hg : g ≠ "" := hne g (List.mem_cons_self g gs)
    have hcb : dirCallback "@lunaria-ignore" path g = .ok (!globMatch g.data path.data) := by
      rw [dirCallback, if_neg (by decide), if_pos rfl, picoIsMatch, if_neg hg]
    simp only [dirFind, hcb]
    cases hb : globMatch g.data path.data with
    | true => simp [hb, ih (fun x hx => hne x (List.mem_cons_of_mem g hx))]
    | false => simp [hb]

/-- C3 counterexample: a commit whose first directive is lunaria-ignore with
two listed literal paths, against a file path that matches the first of
them.  The claim predicts the commit is not tracked; the code nevertheless
selects it, because the inner find succeeds on any listed glob the path
fails to match (here the second one). -/
theorem c3_counterexample_multi_glob_still_tracked :
    globMatch "docs/a.md".data "docs/a.md".data = true ∧
    findDirective exIgnoreCommit.body.data =
      some ("@lunaria-ignore", some "docs/a.md;docs/b.md") ∧
    splitSemi "docs/a.md;docs/b.md" = ["docs/a.md", "docs/b.md"] ∧
    findLatestTrackedCommit ⟨["zzz"]⟩ "docs/a.md" [exIgnoreCommit] = .ok (some exIgnoreCommit) :=
  ⟨rfl, rfl, rfl, rfl⟩

/-- C3 amended: for a commit whose first body directive is lunaria-ignore
with a non-empty semicolon-separated list of globs (none of them the empty
string, which picomatch rejects), and whose subject is not vetoed, the
commit is tracked if and only if the path fails to match at least one
listed glob — equivalently, it is skipped only when the path matches every
listed glob; with a single listed glob this coincides with the original
matches-none reading. -/
theorem c3_amended_ignore_any_nonmatch
    (tracking : Tracking) (path : String) (c : Commit) (pg : String)
    (hveto : msgMatchesIgnored tracking.ignoredKeywords c.message = false)
    (hdir : findDirective c.body.data = some ("@lunaria-ignore", some pg))
    (hne : ∀ g ∈ splitSemi pg, g ≠ "") :
    commitDecision tracking path c = .ok true ↔
      ∃ g ∈ splitSemi pg, globMatch g.data path.data = false := by
  rw [commitDecision, if_neg (by simp [hveto]), directiveDecision, hdir]
  show dirFind "@lunaria-ignore" path (splitSemi pg) = Except.ok true ↔ _
  rw [dirFind_ignore_any path (splitSemi pg) hne]
  simp

/-- Witness for C3 at the concrete two-path ignore commit: the amended
equivalence holds and, the path matching only the first listed glob, the
commit is indeed tracked. -/
theorem c3_witness :
    (msgMatchesIgnored (Tracking.mk ["zzz"]).ignoredKeywords exIgnoreCommit.message = false ∧
     findDirective exIgnoreCommit.body.data =
       some ("@lunaria-ignore", some "docs/a.md;docs/b.md") ∧
     (∀ g ∈ splitSemi "docs/a.md;docs/b.md", g ≠ "")) ∧
    (commitDecision ⟨["zzz"]⟩ "docs/a.md" exIgnoreCommit = .ok true ↔
      ∃ g ∈ splitSemi "docs/a.md;docs/b.md", globMatch g.data "docs/a.md".data = false) :=
  ⟨⟨rfl, rfl, by decide⟩,
   c3_amended_ignore_any_nonmatch ⟨["zzz"]⟩ "docs/a.md" exIgnoreCommit
     "docs/a.md;docs/b.md" rfl rfl (by decide)⟩

/-- C9: with an empty ignoredKeywords list the joined keyword pattern is the
empty alternation, which matches every commit message, so every commit is
vetoed: findLatestTrackedCommit returns none on every commit sequence and
any successful getFileLatestChanges result reports the latest tracked
change equal to the latest change. -/
theorem c9_empty_keywords_always_fallback (tracking : Tracking)
    (hk : tracking.ignoredKeywords = []) (path : String) (commits : List Commit) :
    (∀ m : String, msgMatchesIgnored tracking.ignoredKeywords m = true) ∧
    findLatestTrackedCommit tracking path commits = .ok none ∧
    ∀ (git git2 : LunariaGitInstance) (res : ResolutionResult),
      getFileLatestChanges tracking git path commits = .ok (git2, res) →
      res.latestTrackedChange = res.latestChange := by
  have hall : ∀ m, msgMatchesIgnored tracking.ignoredKeywords m = true := by
    intro m; simp [msgMatchesIgnored, hk]
  have hnone : findLatestTrackedCommit tracking path commits = .ok none := by
    induction commits with
    | nil => rfl
    | cons c cs ih =>
      have hdec : commitDecision tracking path c = .ok false := by
        simp [commitDecision, hall c.message]
      simp [findLatestTrackedCommit, hdec, ih]
  refine ⟨hall, hnone, ?_⟩
  intro git git2 res h
  obtain ⟨rlc, rtc⟩ := res
  unfold getFileLatestChanges at h
  rw [hnone] at h
  cases hl : commits.head? with
  | none => rw [hl] at h; simp [fallbackPick] at h
  | some lc =>
    rw [hl] at h
    simp only [fallbackPick, Except.ok.injEq, Prod.mk.injEq, ResolutionResult.mk.injEq] at h
    obtain ⟨-, h2, h3⟩ := h
    rw [← h2, ← h3]

/-- Witness for C9 with the empty keyword list on a one-commit history. -/
theorem c9_witness :
    (Tracking.mk []).ignoredKeywords = [] ∧
    ((∀ m : String, msgMatchesIgnored (Tracking.mk []).ignoredKeywords m = true) ∧
     findLatestTrackedCommit ⟨[]⟩ "p" [exPlainA] = .ok none ∧
     ∀ (git git2 : LunariaGitInstance) (res : ResolutionResult),
       getFileLatestChanges ⟨[]⟩ git "p" [exPlainA] = .ok (git2, res) →
       res.latestTrackedChange = res.latestChange) :=
  ⟨rfl, c9_empty_keywords_always_fallback ⟨[]⟩ rfl "p" [exPlainA]⟩

/-- C10: the ignored-keyword veto inspects only the commit subject line and
directive extraction inspects only the commit body: when the subject does
not match the keywords the decision is exactly the directive stage applied
to the body, whatever keyword text the body holds, and when the body has no
directive the commit defaults to tracked, whatever directive text the
subject holds. -/
theorem c10_veto_reads_subject_directive_reads_body
    (tracking : Tracking) (path : String) (c : Commit)
    (hmsg : msgMatchesIgnored tracking.ignoredKeywords c.message = false) :
    commitDecision tracking path c = directiveDecision path c.body ∧
    (findDirective c.body.data = none → commitDecision tracking path c = .ok true) := by
  have h1 : commitDecision tracking path c = directiveDecision path c.body := by
    simp [commitDecision, hmsg]
  refine ⟨h1, ?_⟩
  intro hnone
  rw [h1, directiveDecision, hnone]

/-- Witness for C10 at a concrete commit whose subject holds directive text
while the body holds the ignored keyword wip: the body keyword does not
veto and the subject directive is not honored, so the commit is tracked. -/
theorem c10_witness :
    msgMatchesIgnored (Tracking.mk ["wip"]).ignoredKeywords exSwappedCommit.message = false ∧
    (commitDecision ⟨["wip"]⟩ "docs/a.md" exSwappedCommit =
        directiveDecision "docs/a.md" exSwappedCommit.body ∧
     (findDirective exSwappedCommit.body.data = none →
        commitDecision ⟨["wip"]⟩ "docs/a.md" exSwappedCommit = .ok true)) :=
  ⟨rfl, c10_veto_reads_subject_directive_reads_body ⟨["wip"]⟩ "docs/a.md" exSwappedCommit rfl⟩

/-- C5: a successful getFileLatestChanges result reports as latest tracked
change the fields of a commit of the queried sequence, reports as latest
change the newest (head) commit of that sequence, and, when no commit in
the sequence qualifies as tracked, falls back to reporting the newest
commit as the latest tracked change. -/
theorem c5_tracked_change_from_sequence
    (tracking : Tracking) (git : LunariaGitInstance) (path : String)
    (log : List Commit) (git2 : LunariaGitInstance) (res : ResolutionResult)
    (h : getFileLatestChanges tracking git path log = .ok (git2, res)) :
    (∃ c ∈ log, res.latestTrackedChange = c.info) ∧
    log.head?.map Commit.info = some res.latestChange ∧
    (findLatestTrackedCommit tracking path log = .ok none →
      res.latestTrackedChange = res.latestChange) := by
  obtain ⟨rlc, rtc⟩ := res
  unfold getFileLatestChanges at h
  cases hf : findLatestTrackedCommit tracking path log with
  | error e => rw [hf] at h; simp at h
  | ok found =>
    rw [hf] at h
    cases hl : log.head? with
    | none =>
      rw [hl] at h
      cases found with
      | none => simp [fallbackPick] at h
      | some c => simp [fallbackPick] at h
    | some lc =>
      rw [hl] at h
      have hlcmem : lc ∈ log := by
        cases log with
        | nil => simp at hl
        | cons a t =>
          simp at hl
          rw [← hl]
          exact List.mem_cons_self a t
      cases found with
      | some c =>
        simp only [fallbackPick, Except.ok.injEq, Prod.mk.injEq,
          ResolutionResult.mk.injEq] at h
        obtain ⟨-, h2, h3⟩ := h
        obtain ⟨hcmem, -⟩ := findLatest_sound tracking path log c hf
        refine ⟨⟨c, hcmem, h3.symm⟩, by rw [← h2]; rfl, ?_⟩
        intro hn
        simp at hn
      | none =>
        simp only [fallbackPick, Except.ok.injEq, Prod.mk.injEq,
          ResolutionResult.mk.injEq] at h
        obtain ⟨-, h2, h3⟩ := h
        exact ⟨⟨lc, hlcmem, h3.symm⟩, by rw [← h2]; rfl, fun _ => by rw [← h2, ← h3]⟩

/-- Witness for C5 at a concrete one-commit history resolved with an empty
cache: the hypotheses are discharged by evaluation. -/
theorem c5_witness :
    (∃ c ∈ [exPlainA],
        (ResolutionResult.mk exPlainA.info exPlainA.info).latestTrackedChange = c.info) ∧
    [exPlainA].head?.map Commit.info =
      some (ResolutionResult.mk exPlainA.info exPlainA.info).latestChange ∧
    (findLatestTrackedCommit ⟨["fix"]⟩ "p" [exPlainA] = .ok none →
      (ResolutionResult.mk exPlainA.info exPlainA.info).latestTrackedChange =
        (ResolutionResult.mk exPlainA.info exPlainA.info).latestChange) :=
  c5_tracked_change_from_sequence ⟨["fix"]⟩ ⟨false, []⟩ "p" [exPlainA]
    ⟨false, [("p", "ha")]⟩ ⟨exPlainA.info, exPlainA.info⟩ rfl

/-- Appending the caret character is injective on strings. -/
theorem appendCaret_inj (a b : String) (hab : a ++ "^" = b ++ "^") : a = b := by
  apply String.ext
  have h2 : a.data ++ "^".data = b.data ++ "^".data := by
    simpa [String.data_append] using congrArg String.data hab
  exact (List.append_left_inj _).mp h2

/-- The first index found by findIdxOpt carries an element satisfying the
predicate. -/
theorem findIdxOpt_get (p : Commit → Bool) :
    ∀ (l : List Commit) (i : Nat), findIdxOpt p l = some i →
      ∃ x, l.get? i = some x ∧ p x = true := by
  intro l
  induction l with
  | nil => intro i h; simp [findIdxOpt] at h
  | cons a t ih =>
    intro i h
    by_cases hp : p a = true
    · simp [findIdxOpt, hp] at h
      exact ⟨a, by rw [← h]; rfl, hp⟩
    · simp [findIdxOpt, hp] at h
      obtain ⟨j, hj, hji⟩ := h
      obtain ⟨x, hx, hpx⟩ := ih j hj
      exact ⟨x, by rw [← hji]; simpa using hx, hpx⟩

/-- C7 counterexample: with checkpoint hash h1 cached for path p, the query
bound the code passes is the caret-suffixed hash, and the sequence the
backend returns for a two-commit history is the whole history: it still
contains the checkpoint commit itself (hash h1), so it is not restricted to
commits newer than the checkpoint. -/
theorem c7_counterexample_checkpoint_not_excluded :
    cacheLookup (LunariaGitInstance.mk false [("p", "h1")]).cache "p" = some "h1" ∧
    fromArg ⟨false, [("p", "h1")]⟩ "p" = some "h1^" ∧
    gitLogFrom [exNewer, exOlder] (fromArg ⟨false, [("p", "h1")]⟩ "p") = [exNewer, exOlder] ∧
    exOlder.hash = "h1" ∧
    exOlder ∈ gitLogFrom [exNewer, exOlder] (fromArg ⟨false, [("p", "h1")]⟩ "p") :=
  ⟨rfl, rfl, rfl, rfl, by rw [show gitLogFrom [exNewer, exOlder]
      (fromArg ⟨false, [("p", "h1")]⟩ "p") = [exNewer, exOlder] from rfl]; simp⟩

/-- C7 amended: for a path with a cached non-empty checkpoint hash, the
bound passed to the log query is the parent of the checkpoint commit, so
the returned sequence consists of the commits strictly newer than that
parent: every commit down to and including the checkpoint itself, and
nothing older. -/
theorem c7_amended_checkpoint_included
    (git : LunariaGitInstance) (path h : String) (history : List Commit) (i : Nat)
    (hcache : cacheLookup git.cache path = some h) (hne : h ≠ "")
    (hidx : findIdxOpt (fun c => c.hash ++ "^" == h ++ "^") history = some i) :
    gitLogFrom history (fromArg git path) = history.take (i + 1) ∧
    ∀ ci, history.get? i = some ci →
      ci.hash = h ∧ ci ∈ gitLogFrom history (fromArg git path) := by
  have hfrom : fromArg git path = some (h ++ "^") := by
    simp [fromArg, hcache, hne]
  have hlog : gitLogFrom history (fromArg git path) = history.take (i + 1) := by
    rw [hfrom]
    show (match findIdxOpt (fun c => c.hash ++ "^" == h ++ "^") history with
      | some i => history.take (i + 1)
      | none => match findIdxOpt (fun c => c.hash == h ++ "^") history with
        | some i => history.take i
        | none => history) = history.take (i + 1)
    rw [hidx]
  refine ⟨hlog, ?_⟩
  intro ci hget
  obtain ⟨x, hx, hpx⟩ := findIdxOpt_get _ history i hidx
  rw [hget] at hx
  have hxci : x = ci := by simpa using hx.symm
  subst hxci
  have hh : x.hash = h := by
    apply appendCaret_inj
    simpa using hpx
  refine ⟨hh, ?_⟩
  rw [hlog]
  have hmem : (history.take (i + 1)).get? i = some x := by
    rw [List.get?_take (Nat.lt_succ_self i)]
    exact hget
  exact List.get?_mem hmem

/-- Witness for C7 at the concrete two-commit history with the checkpoint
at index one. -/
theorem c7_witness :
    (cacheLookup (LunariaGitInstance.mk false [("p", "h1")]).cache "p" = some "h1" ∧
     findIdxOpt (fun c => c.hash ++ "^" == "h1" ++ "^") [exNewer, exOlder] = some 1) ∧
    gitLogFrom [exNewer, exOlder] (fromArg ⟨false, [("p", "h1")]⟩ "p") =
      [exNewer, exOlder].take 2 ∧
    ∀ ci, [exNewer, exOlder].get? 1 = some ci →
      ci.hash = "h1" ∧ ci ∈ gitLogFrom [exNewer, exOlder] (fromArg ⟨false, [("p", "h1")]⟩ "p") :=
  ⟨⟨rfl, rfl⟩, c7_amended_checkpoint_included ⟨false, [("p", "h1")]⟩ "p" "h1"
    [exNewer, exOlder] 1 rfl (by decide) rfl⟩

/-- A successful getFileLatestChanges call leaves the instance state as the
guarded cache write of the reported tracked hash. -/
theorem getFile_ok_state (tracking : Tracking) (git : LunariaGitInstance) (path : String)
    (log : List Commit) (git2 : LunariaGitInstance) (res : ResolutionResult)
    (h : getFileLatestChanges tracking git path log = .ok (git2, res)) :
    git2 = writeCache git path res.latestTrackedChange.hash := by
  obtain ⟨rlc, rtc⟩ := res
  unfold getFileLatestChanges at h
  cases hf : findLatestTrackedCommit tracking path log with
  | error e => rw [hf] at h; simp at h
  | ok found =>
    rw [hf] at h
    cases hl : log.head? with
    | none =>
      rw [hl] at h
      cases found with
      | none => simp [fallbackPick] at h
      | some c => simp [fallbackPick] at h
    | some lc =>
      rw [hl] at h
      cases found with
      | some c =>
        simp only [fallbackPick, Except.ok.injEq, Prod.mk.injEq,
          ResolutionResult.mk.injEq] at h
        obtain ⟨h1, -, h3⟩ := h
        rw [← h1, ← h3]
        rfl
      | none =>
        simp only [fallbackPick, Except.ok.injEq, Prod.mk.injEq,
          ResolutionResult.mk.injEq] at h
        obtain ⟨h1, -, h3⟩ := h
        rw [← h1, ← h3]
        rfl

/-- In force mode a per-file call never changes the instance state. -/
theorem gitCall_force (tracking : Tracking) (git : LunariaGitInstance)
    (hf : git.force = true) (x : String × List Commit) : gitCall tracking git x = git := by
  unfold gitCall
  cases hg : getFileLatestChanges tracking git x.1 (gitLogFrom x.2 (fromArg git x.1)) with
  | error e => rfl
  | ok pr =>
    obtain ⟨git2, res⟩ := pr
    have hst := getFile_ok_state tracking git x.1 _ git2 res hg
    simp [hst, writeCache, hf]

/-- In force mode any sequence of per-file calls leaves the instance state
unchanged. -/
theorem runCalls_force_fixed (tracking : Tracking) (git : LunariaGitInstance)
    (hf : git.force = true) (calls : List (String × List Commit)) :
    runCalls tracking git calls = git := by
  induction calls with
  | nil => rfl
  | cons x xs ih =>
    show List.foldl (gitCall tracking) git (x :: xs) = git
    rw [List.foldl_cons, gitCall_force tracking git hf x]
    exact ih

/-- C8: with the force flag set, the instance starts with an empty cache,
every history query after any number of per-file calls is issued with no
lower bound (the cache read yields nothing), and cache writes are
suppressed, so the cache mapping is still empty after any number of
calls. -/
theorem c8_force_mode_cache_empty_and_unread (tracking : Tracking)
    (loadedCache : List (String × String)) (calls : List (String × List Commit)) :
    (initGit true loadedCache).cache = [] ∧
    (runCalls tracking (initGit true loadedCache) calls).cache = [] ∧
    ∀ (n : Nat) (path : String),
      fromArg (runCalls tracking (initGit true loadedCache) (calls.take n)) path = none := by
  refine ⟨?_, ?_, ?_⟩
  · rfl
  · rw [runCalls_force_fixed tracking (initGit true loadedCache) rfl calls]
    rfl
  · intro n path
    rw [runCalls_force_fixed tracking (initGit true loadedCache) rfl (calls.take n)]
    rfl
